import Mathlib

/-!
Verification of `PlotTools.py`, a small utility that loads repeated
experimental-run outputs from text files, aggregates them into
mean / standard-error statistics, and writes aggregated text files.

The embedding models:
* the result of one `np.loadtxt` call as a `ReadResult` (the file's parsed
  contents, a missing file, a permission failure, or any other exception
  such as malformed numeric data);
* `load_results` as a fuel-indexed loop over run indices 0, 1, 2, ...,
  where Python's `except IOError` catches both a missing file and a
  permission failure (in Python, `PermissionError` and `FileNotFoundError`
  are both subclasses of `IOError`/`OSError`), while other exceptions
  propagate;
* `load_directory` as a filter of the directory listing by the glob pattern
  `*-0.txt` (glob does not match names starting with a dot) followed by
  basename extraction and a `load_results` call per match;
* `aggregate_results` and the table/header written by `summarize_directory`
  over real-valued run data, with numpy's `mean`, `std` (population form,
  `ddof = 0`), `cumsum` and transpose spelled out.
-/

/-- Outcome of one `np.loadtxt(file_name.format(run_number))` call:
either the parsed array, or the exception it raised. `fileNotFound` and
`permissionDenied` are the `IOError` cases; `valueError` stands for any
non-`IOError` exception (e.g. malformed numeric data). -/
inductive ReadResult (α : Type) where
  | ok (a : α)
  | fileNotFound
  | permissionDenied
  | valueError
  deriving DecidableEq

/-- How a call to `load_results` ends: a normal return with the list of
loaded arrays, or an uncaught exception propagating to the caller. -/
inductive LoadOutcome (α : Type) where
  | normal (runs : List α)
  | raised
  deriving DecidableEq

/-- The `while True` loop of `load_results`: at each index, try to load the
file; on `IOError` (missing file or permission failure) break and return
what was accumulated; on any other exception propagate it. `fuel` bounds
the number of iterations (`none` = fuel exhausted, i.e. the loop has not
terminated within `fuel` steps). -/
def loadResultsGo {α : Type} (fs : Nat → ReadResult α) :
    Nat → Nat → List α → Option (LoadOutcome α)
  | 0, _, _ => none
  | fuel + 1, idx, acc =>
    match fs idx with
    | ReadResult.ok a => loadResultsGo fs fuel (idx + 1) (acc ++ [a])
    | ReadResult.fileNotFound => some (LoadOutcome.normal acc)
    | ReadResult.permissionDenied => some (LoadOutcome.normal acc)
    | ReadResult.valueError => some LoadOutcome.raised

/-- Model of `load_results(file_name)`: starting at run index 0 with an empty result
list, load files until the first `IOError`. `fs i` is what
`np.loadtxt(file_name.format(i))` does for index `i`. -/
def load_results {α : Type} (fs : Nat → ReadResult α) (fuel : Nat) :
    Option (LoadOutcome α) :=
  loadResultsGo fs fuel 0 []

/-- Whether one string ends with another, on the underlying characters
(the meaning of Python's `str.endswith` / a trailing glob literal). -/
def strEndsWith (s t : String) : Bool :=
  t.data.isSuffixOf s.data

/-- Whether one string starts with another, on the underlying characters
(the meaning of Python's `str.startswith`). -/
def strStartsWith (s t : String) : Bool :=
  t.data.isPrefixOf s.data

/-- Whether a directory entry is matched by `glob.iglob("*-0.txt")`:
the name must end in `-0.txt`, and glob never matches hidden files
(names starting with `.`) with a pattern that does not start with `.`. -/
def globMatch (name : String) : Bool :=
  strEndsWith name "-0.txt" && !strStartsWith name "."

/-- The basename extracted by `re.findall(r'^(.*)-0.txt', name)` with a
greedy `(.*)`: for a name matched by the glob this is the name minus its
final six characters `-0.txt`. -/
def basenameOf (name : String) : String :=
  ⟨name.data.take (name.data.length - 6)⟩

/-- The format pattern built by
`re.sub(r'^(.*-)0(\.txt)$', r'\1\x7b\x7d\2', pathname)`: the trailing
`-0.txt` becomes a `-N.txt` template. -/
def patternOf (name : String) : String :=
  ⟨name.data.take (name.data.length - 6) ++ ("-\x7b\x7d.txt" : String).data⟩

/-- Model of `load_directory(directory)`: iterate over the files matching `*-0.txt`,
and for each one yield the pair of its basename and the `load_results`
of its run-number pattern. `files` is the directory listing and
`fsOf pattern i` is what `np.loadtxt(pattern.format(i))` does. -/
def load_directory {α : Type} (files : List String)
    (fsOf : String → Nat → ReadResult α) (fuel : Nat) :
    List (String × Option (LoadOutcome α)) :=
  (files.filter globMatch).map
    (fun f => (basenameOf f, load_results (fsOf (patternOf f)) fuel))

/-- numpy `mean` of a 1-D array (as a list of reals). -/
noncomputable def npMean (xs : List ℝ) : ℝ :=
  xs.sum / xs.length

/-- numpy `var` with the default `ddof = 0`: the mean squared deviation. -/
noncomputable def npVar (xs : List ℝ) : ℝ :=
  npMean (xs.map (fun x => (x - npMean xs) ^ 2))

/-- numpy `std` with the default `ddof = 0`. -/
noncomputable def npStd (xs : List ℝ) : ℝ :=
  Real.sqrt (npVar xs)

/-- Column `t` of a 2-D array stored as a list of rows: the slice
`results[:, t]` used by the `axis=0` reductions. -/
def column (rows : List (List ℝ)) (t : Nat) : List ℝ :=
  rows.map (fun r => r.getD t 0)

/-- The number of columns of a rectangular 2-D array (numpy arrays are
rectangular; for a ragged list this is the first row's length). -/
def ncols (rows : List (List ℝ)) : Nat :=
  (rows.headD []).length

/-- Running-total accumulator for numpy `cumsum` along a row. -/
def cumsumGo (acc : ℝ) : List ℝ → List ℝ
  | [] => []
  | x :: xs => (acc + x) :: cumsumGo (acc + x) xs

/-- numpy `cumsum` of one row (`axis=1` applies this to every row). -/
def cumsum (xs : List ℝ) : List ℝ :=
  cumsumGo 0 xs

/-- Model of `aggregate_results(results)`: with `nresults = np.size(results, axis=0)`
runs, return
`(results.mean(axis=0),
  results.std(axis=0) / np.sqrt(nresults),
  results.cumsum(axis=1).std(axis=0) / np.sqrt(nresults))`,
each an array indexed by time step. -/
noncomputable def aggregate_results (results : List (List ℝ)) :
    List ℝ × List ℝ × List ℝ :=
  ((List.range (ncols results)).map (fun t => npMean (column results t)),
   (List.range (ncols results)).map
     (fun t => npStd (column results t) / Real.sqrt (results.length : ℝ)),
   (List.range (ncols results)).map
     (fun t => npStd (column (results.map cumsum) t) /
       Real.sqrt (results.length : ℝ)))

/-- numpy transpose `.T` of a rectangular 2-D array given as rows. -/
def npTranspose (rows : List (List ℝ)) : List (List ℝ) :=
  (List.range (ncols rows)).map (fun t => rows.map (fun r => r.getD t 0))

/-- The table of rows that `summarize_directory` passes to `np.savetxt`:
`np.array(aggregate_results(results)).T`. -/
noncomputable def summarize_rows (results : List (List ℝ)) :
    List (List ℝ) :=
  npTranspose [(aggregate_results results).1,
               (aggregate_results results).2.1,
               (aggregate_results results).2.2]

/-- The header line `np.savetxt` writes for
`header='\x7b\x7d (\x7b\x7d runs)'.format(name, np.size(results, axis=0))`:
`savetxt` prefixes each header line with its default comment marker. -/
def header_line (name : String) (nruns : Nat) : String :=
  "# " ++ name ++ " (" ++ toString nruns ++ " runs)"

/-- If the loop starts at index `idx` with accumulator `acc`, the next `k`
indices all load successfully, and index `idx + k` raises an `IOError`
(missing file or permission failure), then the loop returns normally with
the `k` freshly loaded arrays appended to `acc`. -/
theorem loadResultsGo_ok_then_stop {α : Type} (fs : Nat → ReadResult α)
    (d : Nat → α) :
    ∀ (k fuel idx : Nat) (acc : List α),
      (∀ i, i < k → fs (idx + i) = ReadResult.ok (d (idx + i))) →
      (fs (idx + k) = ReadResult.fileNotFound ∨
        fs (idx + k) = ReadResult.permissionDenied) →
      k < fuel →
      loadResultsGo fs fuel idx acc =
        some (LoadOutcome.normal
          (acc ++ (List.range k).map (fun i => d (idx + i)))) := by
  intro k
  induction k with
  | zero =>
    intro fuel idx acc _ hstop hfuel
    obtain ⟨f, rfl⟩ : ∃ f, fuel = f + 1 := ⟨fuel - 1, by omega⟩
    rcases hstop with h | h <;>
      · simp only [Nat.add_zero] at h
        simp [loadResultsGo, h]
  | succ k ih =>
    intro fuel idx acc hok hstop hfuel
    obtain ⟨f, rfl⟩ : ∃ f, fuel = f + 1 := ⟨fuel - 1, by omega⟩
    have h0 : fs idx = ReadResult.ok (d idx) := by
      have := hok 0 (Nat.succ_pos k)
      simpa using this
    have hrec := ih f (idx + 1) (acc ++ [d idx])
      (fun i hi => by
        have := hok (i + 1) (by omega)
        simpa [Nat.add_assoc, Nat.add_comm 1 i] using this)
      (by
        rcases hstop with h | h
        · exact Or.inl (by simpa [Nat.add_assoc, Nat.add_comm 1 k] using h)
        · exact Or.inr (by simpa [Nat.add_assoc, Nat.add_comm 1 k] using h))
      (by omega)
    have hshape :
        acc ++ [d idx] ++ (List.range k).map (fun i => d (idx + 1 + i)) =
          acc ++ (List.range (k + 1)).map (fun i => d (idx + i)) := by
      rw [List.range_succ_eq_map, List.append_assoc, List.map_cons,
        List.map_map, List.singleton_append]
      congr 1
      congr 1
      apply List.map_congr_left
      intro i _
      simp only [Function.comp_apply]
      congr 1
      omega
    calc loadResultsGo fs (f + 1) idx acc
        = loadResultsGo fs f (idx + 1) (acc ++ [d idx]) := by
          simp [loadResultsGo, h0]
      _ = some (LoadOutcome.normal
            (acc ++ [d idx] ++
              (List.range k).map (fun i => d (idx + 1 + i)))) := hrec
      _ = some (LoadOutcome.normal
            (acc ++ (List.range (k + 1)).map (fun i => d (idx + i)))) := by
          rw [hshape]

/-- A concrete file sequence: indices 0 and 1 load, index 2 is missing. -/
def fsA : Nat → ReadResult Nat :=
  fun i => if i < 2 then ReadResult.ok (i + 10) else ReadResult.fileNotFound

/-- A concrete file sequence where already the first file is missing. -/
def fsB : Nat → ReadResult Nat :=
  fun _ => ReadResult.fileNotFound

/-- A concrete file sequence: index 0 loads, index 1 raises a permission
error. -/
def fsC : Nat → ReadResult Nat :=
  fun i => if i = 0 then ReadResult.ok 7 else ReadResult.permissionDenied

/-- Claim C1: `load_results` loads run indices 0, 1, 2, ... in order and
stops at the first missing index: if exactly indices `0..k-1` load and
index `k` is missing, it returns exactly those `k` arrays in order, and
its result is unchanged by anything the filesystem does at indices
greater than `k` (it never reads them). -/
theorem c1_load_results_stops_at_first_missing {α : Type}
    (fs : Nat → ReadResult α) (d : Nat → α) (k fuel : Nat)
    (hok : ∀ i, i < k → fs i = ReadResult.ok (d i))
    (hmiss : fs k = ReadResult.fileNotFound)
    (hfuel : k < fuel) :
    load_results fs fuel =
      some (LoadOutcome.normal ((List.range k).map d)) ∧
    ∀ fs₂ : Nat → ReadResult α, (∀ i, i ≤ k → fs₂ i = fs i) →
      load_results fs₂ fuel = load_results fs fuel := by
  have hmain : ∀ g : Nat → ReadResult α,
      (∀ i, i < k → g i = ReadResult.ok (d i)) →
      g k = ReadResult.fileNotFound →
      load_results g fuel =
        some (LoadOutcome.normal ((List.range k).map d)) := by
    intro g hg hgk
    have := loadResultsGo_ok_then_stop g d k fuel 0 []
      (fun i hi => by simpa using hg i hi)
      (Or.inl (by simpa using hgk)) hfuel
    simpa [load_results] using this
  refine ⟨hmain fs hok hmiss, ?_⟩
  intro fs₂ hagree
  rw [hmain fs hok hmiss, hmain fs₂
    (fun i hi => by rw [hagree i (Nat.le_of_lt hi)]; exact hok i hi)
    (by rw [hagree k (Nat.le_refl k)]; exact hmiss)]

/-- Witness for C1 on the concrete sequence `fsA` (files at 0 and 1,
nothing at 2): two runs are loaded, in order. -/
theorem c1_witness :
    ((∀ i, i < 2 → fsA i = ReadResult.ok (i + 10)) ∧
      fsA 2 = ReadResult.fileNotFound ∧ 2 < 5) ∧
    (load_results fsA 5 =
        some (LoadOutcome.normal ((List.range 2).map (fun i => i + 10))) ∧
      ∀ fs₂ : Nat → ReadResult Nat, (∀ i, i ≤ 2 → fs₂ i = fsA i) →
        load_results fs₂ 5 = load_results fsA 5) :=
  ⟨⟨fun i hi => by interval_cases i <;> rfl, rfl, by omega⟩,
    c1_load_results_stops_at_first_missing fsA (fun i => i + 10) 2 5
      (fun i hi => by interval_cases i <;> rfl) rfl (by omega)⟩

/-- Claim C9: when already the index-0 file is missing, `load_results`
returns normally with zero loaded runs instead of raising. -/
theorem c9_load_results_empty_when_first_missing {α : Type}
    (fs : Nat → ReadResult α) (fuel : Nat)
    (h0 : fs 0 = ReadResult.fileNotFound) (hfuel : 0 < fuel) :
    load_results fs fuel = some (LoadOutcome.normal []) := by
  obtain ⟨f, rfl⟩ : ∃ f, fuel = f + 1 := ⟨fuel - 1, by omega⟩
  simp [load_results, loadResultsGo, h0]

/-- Witness for C9 on the concrete sequence `fsB` (no files at all). -/
theorem c9_witness :
    (fsB 0 = ReadResult.fileNotFound ∧ 0 < 3) ∧
    load_results fsB 3 = some (LoadOutcome.normal []) :=
  ⟨⟨rfl, by omega⟩,
    c9_load_results_empty_when_first_missing fsB 3 rfl (by omega)⟩

/-- Counterexample to claim C5 as stated: on `fsC` the read of index 1
fails with a permission error, yet `load_results` does NOT propagate it —
the `except IOError` clause catches `PermissionError` too, so the loop
terminates and returns the one loaded run normally. -/
theorem c5_counterexample :
    load_results fsC 3 = some (LoadOutcome.normal [7]) ∧
      load_results fsC 3 ≠ some LoadOutcome.raised := by
  constructor
  · rfl
  · decide

/-- Claim C5 (amended): a permission error while reading a run file is
caught by the same `except IOError` handler as a missing file and
terminates the load loop normally with the runs read so far; only
non-`IOError` failures propagate. -/
theorem c5_amended_permission_error_caught {α : Type}
    (fs : Nat → ReadResult α) (d : Nat → α) (k fuel : Nat)
    (hok : ∀ i, i < k → fs i = ReadResult.ok (d i))
    (hperm : fs k = ReadResult.permissionDenied)
    (hfuel : k < fuel) :
    load_results fs fuel =
      some (LoadOutcome.normal ((List.range k).map d)) := by
  have := loadResultsGo_ok_then_stop fs d k fuel 0 []
    (fun i hi => by simpa using hok i hi)
    (Or.inr (by simpa using hperm)) hfuel
  simpa [load_results] using this

/-- Witness for the amended C5 on `fsC`: one run is loaded, then the
permission error at index 1 ends the loop normally. -/
theorem c5_amended_witness :
    ((∀ i, i < 1 → fsC i = ReadResult.ok 7) ∧
      fsC 1 = ReadResult.permissionDenied ∧ 1 < 3) ∧
    load_results fsC 3 =
      some (LoadOutcome.normal ((List.range 1).map (fun _ => 7))) :=
  ⟨⟨fun i hi => by interval_cases i; rfl, rfl, by omega⟩,
    c5_amended_permission_error_caught fsC (fun _ => 7) 1 3
      (fun i hi => by interval_cases i; rfl) rfl (by omega)⟩

/-- Spec-side definition ("Stderr: standard error of the mean across
runs"): the mean of `n` sampled values, written as an indexed sum. -/
noncomputable def specMean (xs : List ℝ) : ℝ :=
  (∑ i in Finset.range xs.length, xs.getD i 0) / xs.length

/-- Spec-side definition: the (population) standard deviation of the
sampled values, the square root of the mean squared deviation. -/
noncomputable def specStddev (xs : List ℝ) : ℝ :=
  Real.sqrt ((∑ i in Finset.range xs.length,
    (xs.getD i 0 - specMean xs) ^ 2) / xs.length)

/-- Spec-side definition: the standard error of the mean of the sampled
values — their standard deviation divided by the square root of their
number. -/
noncomputable def specStderr (xs : List ℝ) : ℝ :=
  specStddev xs / Real.sqrt xs.length

/-- Spec-side definition: the cumulative sum of a run — entry `t` is the
sum of the first `t + 1` samples. -/
noncomputable def specCumsum (xs : List ℝ) : List ℝ :=
  (List.range xs.length).map
    (fun t => ∑ i in Finset.range (t + 1), xs.getD i 0)

/-- A list's sum written as an indexed sum over its positions. -/
theorem list_sum_eq_sum_range (xs : List ℝ) :
    xs.sum = ∑ i in Finset.range xs.length, xs.getD i 0 := by
  induction xs with
  | nil => simp
  | cons x xs ih =>
    rw [List.sum_cons, ih, List.length_cons, Finset.sum_range_succ']
    simp [List.getD_cons_succ, List.getD_cons_zero]
    ring

/-- numpy's `mean` agrees with the spec's mean. -/
theorem npMean_eq_specMean (xs : List ℝ) : npMean xs = specMean xs := by
  rw [npMean, specMean, list_sum_eq_sum_range]

/-- numpy's `std` (`ddof = 0`) agrees with the spec's standard deviation. -/
theorem npStd_eq_specStddev (xs : List ℝ) : npStd xs = specStddev xs := by
  rw [npStd, specStddev, npVar, npMean, list_sum_eq_sum_range]
  congr 1
  congr 1
  · rw [List.length_map]
    apply Finset.sum_congr rfl
    intro i hi
    have hi' : i < xs.length := Finset.mem_range.mp hi
    rw [List.getD_eq_getElem _ _ (by simpa using hi'),
      List.getD_eq_getElem _ _ hi', List.getElem_map, npMean_eq_specMean]
  · rw [List.length_map]

/-- The running-total loop of `cumsum`, expressed by partial sums. -/
theorem cumsumGo_eq_partial_sums (xs : List ℝ) : ∀ acc : ℝ,
    cumsumGo acc xs =
      (List.range xs.length).map
        (fun t => acc + ∑ i in Finset.range (t + 1), xs.getD i 0) := by
  induction xs with
  | nil => intro acc; simp [cumsumGo]
  | cons x xs ih =>
    intro acc
    rw [cumsumGo, ih (acc + x), List.length_cons, List.range_succ_eq_map,
      List.map_cons, List.map_map]
    congr 1
    · simp
    · apply List.map_congr_left
      intro t _
      simp only [Function.comp_apply]
      conv_rhs => rw [Finset.sum_range_succ']
      simp [List.getD_cons_succ, List.getD_cons_zero]
      ring

/-- numpy's `cumsum` of a row agrees with the spec's cumulative sum. -/
theorem cumsum_eq_specCumsum (xs : List ℝ) : cumsum xs = specCumsum xs := by
  rw [cumsum, cumsumGo_eq_partial_sums xs 0, specCumsum]
  simp

/-- The column of a 2-D array has one entry per run. -/
theorem column_length (rows : List (List ℝ)) (t : Nat) :
    (column rows t).length = rows.length := by
  simp [column]

/-- Claim C2: for a non-empty rectangular collection of runs, the second
output of `aggregate_results` (the stderr column) is, at every time step,
the standard error of the mean across runs — the standard deviation of
the runs' values at that step divided by the square root of the number of
runs. -/
theorem c2_stderr_is_standard_error (results : List (List ℝ))
    (_hne : 0 < results.length)
    (_hrect : ∀ r ∈ results, r.length = ncols results) :
    (aggregate_results results).2.1 =
      (List.range (ncols results)).map
        (fun t => specStderr (column results t)) := by
  simp only [aggregate_results]
  apply List.map_congr_left
  intro t _
  rw [npStd_eq_specStddev, specStderr, column_length]

/-- Witness for C2 on two runs of two steps each. -/
theorem c2_witness :
    (0 < ([[1, 2], [3, 4]] : List (List ℝ)).length ∧
      ∀ r ∈ ([[1, 2], [3, 4]] : List (List ℝ)),
        r.length = ncols [[1, 2], [3, 4]]) ∧
    (aggregate_results [[1, 2], [3, 4]]).2.1 =
      (List.range (ncols [[1, 2], [3, 4]])).map
        (fun t => specStderr (column [[1, 2], [3, 4]] t)) :=
  ⟨⟨by simp, by intro r hr; simp only [List.mem_cons, List.not_mem_nil, or_false,
        List.mem_singleton] at hr; rcases hr with rfl | rfl <;> simp [ncols]⟩,
    c2_stderr_is_standard_error [[1, 2], [3, 4]] (by simp)
      (by intro r hr; simp only [List.mem_cons, List.not_mem_nil, or_false,
        List.mem_singleton] at hr; rcases hr with rfl | rfl <;> simp [ncols])⟩

/-- Claim C4: for a non-empty rectangular collection of runs, the third
output of `aggregate_results` (the cumulative-stderr column) is, at every
time step, the standard error across runs of the per-run cumulative sums:
cumulatively sum each run along its time axis, then take the standard
deviation across runs at that step and divide by the square root of the
number of runs. -/
theorem c4_cumstderr_is_stderr_of_cumsums (results : List (List ℝ))
    (_hne : 0 < results.length)
    (_hrect : ∀ r ∈ results, r.length = ncols results) :
    (aggregate_results results).2.2 =
      (List.range (ncols results)).map
        (fun t => specStderr (column (results.map specCumsum) t)) := by
  simp only [aggregate_results]
  apply List.map_congr_left
  intro t _
  have hmaps : results.map cumsum = results.map specCumsum :=
    List.map_congr_left (fun r _ => cumsum_eq_specCumsum r)
  rw [hmaps, npStd_eq_specStddev, specStderr, column_length,
    List.length_map]

/-- Witness for C4 on two runs of two steps each. -/
theorem c4_witness :
    (0 < ([[1, 2], [3, 4]] : List (List ℝ)).length ∧
      ∀ r ∈ ([[1, 2], [3, 4]] : List (List ℝ)),
        r.length = ncols [[1, 2], [3, 4]]) ∧
    (aggregate_results [[1, 2], [3, 4]]).2.2 =
      (List.range (ncols [[1, 2], [3, 4]])).map
        (fun t => specStderr (column ([[1, 2], [3, 4]].map specCumsum) t)) :=
  ⟨⟨by simp, by intro r hr; simp only [List.mem_cons, List.not_mem_nil, or_false,
        List.mem_singleton] at hr; rcases hr with rfl | rfl <;> simp [ncols]⟩,
    c4_cumstderr_is_stderr_of_cumsums [[1, 2], [3, 4]] (by simp)
      (by intro r hr; simp only [List.mem_cons, List.not_mem_nil, or_false,
        List.mem_singleton] at hr; rcases hr with rfl | rfl <;> simp [ncols])⟩

/-- The first row of `n ≥ 1` identical rows is that row. -/
theorem headD_replicate (n : Nat) (r : List ℝ) (hn : 1 ≤ n) :
    (List.replicate n r).headD [] = r := by
  obtain ⟨m, rfl⟩ : ∃ m, n = m + 1 := ⟨n - 1, by omega⟩
  simp [List.replicate_succ]

/-- The mean of `n ≥ 1` copies of `c` is `c`. -/
theorem npMean_replicate (n : Nat) (c : ℝ) (hn : 1 ≤ n) :
    npMean (List.replicate n c) = c := by
  have hn0 : (n : ℝ) ≠ 0 := Nat.cast_ne_zero.mpr (by omega)
  rw [npMean]
  simp only [List.sum_replicate, nsmul_eq_mul, List.length_replicate]
  rw [mul_comm, mul_div_assoc, div_self hn0, mul_one]

/-- The standard deviation of `n ≥ 1` copies of `c` is zero. -/
theorem npStd_replicate (n : Nat) (c : ℝ) (hn : 1 ≤ n) :
    npStd (List.replicate n c) = 0 := by
  rw [npStd, npVar, npMean_replicate n c hn, List.map_replicate]
  simp [npMean, List.sum_replicate, sub_self]

/-- Reading every position of a list back in order reproduces the list. -/
theorem map_getD_range (xs : List ℝ) :
    (List.range xs.length).map (fun t => xs.getD t 0) = xs := by
  apply List.ext_getElem
  · simp
  · intro i h1 h2
    simp only [List.getElem_map, List.getElem_range]
    rw [List.getD_eq_getElem _ _ h2]

/-- Claim C6: aggregating `n ≥ 1` identical copies of a row gives a mean
equal to that row and a stderr column that is zero at every position. -/
theorem c6_identical_rows_mean_and_zero_stderr (n : Nat) (r : List ℝ)
    (hn : 1 ≤ n) :
    (aggregate_results (List.replicate n r)).1 = r ∧
    (aggregate_results (List.replicate n r)).2.1 =
      List.replicate r.length 0 := by
  have hT : ncols (List.replicate n r) = r.length := by
    rw [ncols, headD_replicate n r hn]
  have hcol : ∀ t, column (List.replicate n r) t =
      List.replicate n (r.getD t 0) := fun t => by
    rw [column, List.map_replicate]
  constructor
  · simp only [aggregate_results, hT]
    calc (List.range r.length).map
          (fun t => npMean (column (List.replicate n r) t))
        = (List.range r.length).map (fun t => r.getD t 0) := by
          apply List.map_congr_left
          intro t _
          rw [hcol t, npMean_replicate _ _ hn]
      _ = r := map_getD_range r
  · simp only [aggregate_results, hT]
    calc (List.range r.length).map
          (fun t => npStd (column (List.replicate n r) t) /
            Real.sqrt ((List.replicate n r).length : ℝ))
        = (List.range r.length).map (fun _ => (0 : ℝ)) := by
          apply List.map_congr_left
          intro t _
          rw [hcol t, npStd_replicate _ _ hn, zero_div]
      _ = List.replicate r.length 0 := by
          simp

/-- Witness for C6: two copies of the row `[5, 7]`. -/
theorem c6_witness :
    1 ≤ 2 ∧
    ((aggregate_results (List.replicate 2 [(5 : ℝ), 7])).1 = [5, 7] ∧
      (aggregate_results (List.replicate 2 [(5 : ℝ), 7])).2.1 =
        List.replicate ([(5 : ℝ), 7]).length 0) :=
  ⟨by omega, c6_identical_rows_mean_and_zero_stderr 2 [5, 7] (by omega)⟩

/-- The mean is invariant under permuting the sampled values. -/
theorem npMean_perm {xs ys : List ℝ} (h : xs.Perm ys) :
    npMean xs = npMean ys := by
  rw [npMean, npMean, h.sum_eq, h.length_eq]

/-- The standard deviation is invariant under permuting the values. -/
theorem npStd_perm {xs ys : List ℝ} (h : xs.Perm ys) :
    npStd xs = npStd ys := by
  have hm := npMean_perm h
  rw [npStd, npStd, npVar, npVar, hm]
  exact congrArg Real.sqrt
    (npMean_perm (h.map (fun x => (x - npMean ys) ^ 2)))

/-- Claim C7: for a non-empty rectangular collection of runs, permuting
the run axis leaves the mean and stderr outputs of `aggregate_results`
unchanged. -/
theorem c7_mean_stderr_perm_invariant (results results₂ : List (List ℝ))
    (hp : results.Perm results₂) (hne : 0 < results.length)
    (hrect : ∀ r ∈ results, r.length = ncols results) :
    (aggregate_results results).1 = (aggregate_results results₂).1 ∧
    (aggregate_results results).2.1 =
      (aggregate_results results₂).2.1 := by
  have hlen : results.length = results₂.length := hp.length_eq
  have hT : ncols results₂ = ncols results := by
    have hl2 : 0 < results₂.length := hlen ▸ hne
    obtain ⟨r0, rs, rfl⟩ : ∃ a l, results₂ = a :: l := by
      cases results₂ with
      | nil => simp at hl2
      | cons a l => exact ⟨a, l, rfl⟩
    have hmem : r0 ∈ results := hp.mem_iff.mpr (List.mem_cons_self r0 rs)
    have : ncols (r0 :: rs) = r0.length := by simp [ncols]
    rw [this]
    exact hrect r0 hmem
  have hcol : ∀ t, (column results t).Perm (column results₂ t) :=
    fun t => hp.map _
  constructor
  · simp only [aggregate_results, hT]
    apply List.map_congr_left
    intro t _
    exact npMean_perm (hcol t)
  · simp only [aggregate_results, hT, hlen]
    apply List.map_congr_left
    intro t _
    rw [npStd_perm (hcol t)]

/-- Witness for C7: swapping the two runs `[1, 2]` and `[3, 4]`. -/
theorem c7_witness :
    (([[1, 2], [3, 4]] : List (List ℝ)).Perm [[3, 4], [1, 2]] ∧
      0 < ([[1, 2], [3, 4]] : List (List ℝ)).length ∧
      ∀ r ∈ ([[1, 2], [3, 4]] : List (List ℝ)),
        r.length = ncols [[1, 2], [3, 4]]) ∧
    ((aggregate_results [[1, 2], [3, 4]]).1 =
        (aggregate_results [[3, 4], [1, 2]]).1 ∧
      (aggregate_results [[1, 2], [3, 4]]).2.1 =
        (aggregate_results [[3, 4], [1, 2]]).2.1) :=
  ⟨⟨List.Perm.swap _ _ _, by simp,
      by intro r hr; simp only [List.mem_cons, List.not_mem_nil, or_false,
        List.mem_singleton] at hr; rcases hr with rfl | rfl <;> simp [ncols]⟩,
    c7_mean_stderr_perm_invariant [[1, 2], [3, 4]] [[3, 4], [1, 2]]
      (List.Perm.swap _ _ _) (by simp)
      (by intro r hr; simp only [List.mem_cons, List.not_mem_nil, or_false,
        List.mem_singleton] at hr; rcases hr with rfl | rfl <;> simp [ncols])⟩

/-- The transpose has one row per column of its input. -/
theorem npTranspose_length (rows : List (List ℝ)) :
    (npTranspose rows).length = ncols rows := by
  simp [npTranspose]

/-- Row `t` of the transpose is the `t`-th column of the input. -/
theorem npTranspose_getD (rows : List (List ℝ)) (t : Nat)
    (ht : t < ncols rows) :
    (npTranspose rows).getD t [] = rows.map (fun r => r.getD t 0) := by
  rw [npTranspose, List.getD_eq_getElem _ _ (by simpa using ht)]
  simp

/-- Claim C3: the table written for a directory entry is the transpose of
the aggregate triple: one row per time step, and row `t` is the
three-element list (mean, stderr, cumulative-stderr) at step `t`, so the
file has exactly three columns. -/
theorem c3_rows_are_aggregate_triples (results : List (List ℝ)) :
    (summarize_rows results).length = ncols results ∧
    (∀ t, t < ncols results →
      (summarize_rows results).getD t [] =
        [(aggregate_results results).1.getD t 0,
         (aggregate_results results).2.1.getD t 0,
         (aggregate_results results).2.2.getD t 0]) ∧
    ∀ t, t < ncols results →
      ((summarize_rows results).getD t []).length = 3 := by
  have hnc : ncols [(aggregate_results results).1,
      (aggregate_results results).2.1,
      (aggregate_results results).2.2] = ncols results := by
    simp [ncols, aggregate_results]
  have h2 : ∀ t, t < ncols results →
      (summarize_rows results).getD t [] =
        [(aggregate_results results).1.getD t 0,
         (aggregate_results results).2.1.getD t 0,
         (aggregate_results results).2.2.getD t 0] := by
    intro t ht
    rw [summarize_rows, npTranspose_getD _ _ (by rw [hnc]; exact ht)]
    rfl
  refine ⟨?_, h2, fun t ht => by rw [h2 t ht]; rfl⟩
  rw [summarize_rows, npTranspose_length, hnc]

/-- Witness for C3 on two runs of two steps each. -/
theorem c3_witness :
    (summarize_rows [[1, 2], [3, 4]]).length = ncols [[1, 2], [3, 4]] ∧
    (∀ t, t < ncols [[1, 2], [3, 4]] →
      (summarize_rows [[1, 2], [3, 4]]).getD t [] =
        [(aggregate_results [[1, 2], [3, 4]]).1.getD t 0,
         (aggregate_results [[1, 2], [3, 4]]).2.1.getD t 0,
         (aggregate_results [[1, 2], [3, 4]]).2.2.getD t 0]) ∧
    ∀ t, t < ncols [[1, 2], [3, 4]] →
      ((summarize_rows [[1, 2], [3, 4]]).getD t []).length = 3 :=
  c3_rows_are_aggregate_triples [[1, 2], [3, 4]]

/-- A concrete file sequence of runs: data at indices 0 and 1, nothing at
index 2. -/
def fsD : Nat → ReadResult (List ℝ) :=
  fun i => if i < 2 then ReadResult.ok [1] else ReadResult.fileNotFound

/-- Claim C8: for a directory entry whose run files are exactly indices
`0..k-1`, the header written to the aggregated file names that run count
`k`: it is the one-line string `# <name> (<k> runs)`. -/
theorem c8_header_names_loaded_run_count (name : String)
    (fs : Nat → ReadResult (List ℝ)) (d : Nat → List ℝ) (k fuel : Nat)
    (hok : ∀ i, i < k → fs i = ReadResult.ok (d i))
    (hmiss : fs k = ReadResult.fileNotFound) (hfuel : k < fuel)
    (results : List (List ℝ))
    (hres : load_results fs fuel = some (LoadOutcome.normal results)) :
    header_line name results.length =
      "# " ++ name ++ " (" ++ toString k ++ " runs)" := by
  have hload := loadResultsGo_ok_then_stop fs d k fuel 0 []
    (fun i hi => by simpa using hok i hi)
    (Or.inl (by simpa using hmiss)) hfuel
  rw [load_results, hload] at hres
  have h1 := Option.some.inj hres
  have hlen : results.length = k := by
    rw [← LoadOutcome.normal.inj h1]
    simp
  rw [header_line, hlen]

/-- Witness for C8: two runs load for `fsD`, and the header says 2 runs. -/
theorem c8_witness :
    ((∀ i, i < 2 → fsD i = ReadResult.ok [(1 : ℝ)]) ∧
      fsD 2 = ReadResult.fileNotFound ∧ 2 < 4 ∧
      load_results fsD 4 = some (LoadOutcome.normal [[(1 : ℝ)], [1]])) ∧
    header_line "run" ([[(1 : ℝ)], [1]]).length =
      "# " ++ "run" ++ " (" ++ toString 2 ++ " runs)" :=
  ⟨⟨fun i hi => by interval_cases i <;> rfl, rfl, by omega, rfl⟩,
    c8_header_names_loaded_run_count "run" fsD (fun _ => [1]) 2 4
      (fun i hi => by interval_cases i <;> rfl) rfl (by omega) _ rfl⟩

/-- Counterexample to claim C10 as stated: in a directory whose only entry
is the hidden file `.h-0.txt`, `load_directory` yields no pair at all,
although exactly one file name ends in `-0.txt` — glob patterns not
starting with `.` never match hidden files. -/
theorem c10_counterexample :
    (load_directory [".h-0.txt"]
        (fun _ _ => (ReadResult.fileNotFound : ReadResult Nat)) 1).length
      = 0 ∧
    (List.filter (fun f => strEndsWith f "-0.txt") [".h-0.txt"]).length
      = 1 := by
  constructor
  · decide
  · decide

/-- Claim C10 (amended): `load_directory` yields exactly one
(basename, results) pair per non-hidden file (name not starting with `.`)
whose name ends in `-0.txt`, and every yielded pair comes from such an
index-0 file — so a run sequence whose lowest present index is not 0 is
never discovered. -/
theorem c10_amended_one_pair_per_index0_file {α : Type}
    (files : List String) (fsOf : String → Nat → ReadResult α)
    (fuel : Nat) :
    (load_directory files fsOf fuel).length =
      (files.filter
        (fun f => strEndsWith f "-0.txt" && !strStartsWith f ".")).length ∧
    ∀ p ∈ load_directory files fsOf fuel, ∃ f ∈ files,
      strEndsWith f "-0.txt" = true ∧ strStartsWith f "." = false ∧
      p.1 = basenameOf f ∧
      p.2 = load_results (fsOf (patternOf f)) fuel := by
  constructor
  · rw [load_directory, List.length_map]
    rfl
  · intro p hp
    rw [load_directory] at hp
    obtain ⟨f, hf, rfl⟩ := List.mem_map.mp hp
    have hfil := List.mem_filter.mp hf
    have hg : (strEndsWith f "-0.txt" && !strStartsWith f ".") = true :=
      hfil.2
    rw [Bool.and_eq_true, Bool.not_eq_true'] at hg
    exact ⟨f, hfil.1, hg.1, hg.2, rfl, rfl⟩

/-- Witness for the amended C10 on a directory with a proper index-0
file, an index-1 file and a hidden index-0 file. -/
theorem c10_amended_witness :
    (load_directory ["run-0.txt", "run-1.txt", ".h-0.txt"]
        (fun _ _ => (ReadResult.fileNotFound : ReadResult Nat)) 1).length =
      (List.filter (fun f => strEndsWith f "-0.txt" && !strStartsWith f ".")
        ["run-0.txt", "run-1.txt", ".h-0.txt"]).length ∧
    ∀ p ∈ load_directory ["run-0.txt", "run-1.txt", ".h-0.txt"]
        (fun _ _ => (ReadResult.fileNotFound : ReadResult Nat)) 1,
      ∃ f ∈ ["run-0.txt", "run-1.txt", ".h-0.txt"],
        strEndsWith f "-0.txt" = true ∧ strStartsWith f "." = false ∧
        p.1 = basenameOf f ∧
        p.2 = load_results ((fun _ _ =>
          (ReadResult.fileNotFound : ReadResult Nat)) (patternOf f)) 1 :=
  c10_amended_one_pair_per_index0_file ["run-0.txt", "run-1.txt", ".h-0.txt"]
    (fun _ _ => ReadResult.fileNotFound) 1
